import Mathlib

/-!
Verification of the flash orchestration layer of the etcher repository.

Two source files are embedded:

* `lib/cli/etcher.js` — the single-process CLI driver: a promise that fans
  out one `ImageWriter` per destination drive, aggregates per-device
  progress snapshots into one combined progress value, collects per-device
  results on `error`/`finish`, resolves when the writer map is empty, and
  maps the resolved result list to a process exit code.
* the IPC child-writer worker (unnamed source part) — receives a `write`
  command, fans out one `ImageWriter` per destination, forwards `progress`
  events as `state` messages, collects `finish` results, emits `done` and
  terminates when the writer map is empty; its `error` handler is an arrow
  function whose `this` is the CommonJS module context.

Machine numbers carried by progress snapshots are modelled as `ℚ`
(JavaScript arithmetic on these fields is ordinary field arithmetic here:
sums and divisions of realistic progress values).
-/

/-- The `type` tag of a progress snapshot in the source: the string
`"write"` or `"check"` (the spec calls the second phase `verify`). -/
inductive FlashPhase
| write
| check
deriving DecidableEq, Repr

/-- A per-device progress snapshot, as consumed by `onProgress` in
`lib/cli/etcher.js` (fields `device`, `type`, `delta`, `transferred`,
`percentage`, `remaining`, `runtime`, `speed`, `eta`). -/
structure FlashState where
  device : String
  type : FlashPhase
  delta : ℚ
  transferred : ℚ
  percentage : ℚ
  remaining : ℚ
  runtime : ℚ
  speed : ℚ
  eta : ℚ
deriving DecidableEq, Repr

/-- The mutable `progress` object of `lib/cli/etcher.js` lines 82-91. -/
structure Progress where
  type : FlashPhase
  delta : ℚ
  transferred : ℚ
  percentage : ℚ
  remaining : ℚ
  runtime : ℚ
  speed : ℚ
  eta : ℚ
deriving DecidableEq, Repr

/-- Initial value of the `progress` object (type `write`, all numerics 0). -/
def initProgress : Progress :=
  { type := FlashPhase.write, delta := 0, transferred := 0, percentage := 0,
    remaining := 0, runtime := 0, speed := 0, eta := 0 }

/-- Source `resetProgress` (lines 93-101): zero every numeric field, keep `type`. -/
def resetProgress (p : Progress) : Progress :=
  { p with
    delta := 0, transferred := 0, percentage := 0, remaining := 0,
    runtime := 0, speed := 0, eta := 0 }

/-- One iteration of the `states.forEach` accumulation loop
(lines 112-121), restricted to the seven numeric sums. -/
def accumulate (p : Progress) (flash : FlashState) : Progress :=
  { p with
    delta := p.delta + flash.delta,
    transferred := p.transferred + flash.transferred,
    percentage := p.percentage + flash.percentage,
    remaining := p.remaining + flash.remaining,
    runtime := p.runtime + flash.runtime,
    speed := p.speed + flash.speed,
    eta := p.eta + flash.eta }

/-- The `checksum` object of a finish state (`state.checksum.crc32`). -/
structure Checksum where
  crc32 : String
deriving DecidableEq, Repr

/-- The state payload of a writer `finish` event in the CLI variant. -/
structure FinishState where
  checksum : Checksum
deriving DecidableEq, Repr

/-- Outcome part of an entry pushed onto `results`: either
`\x7b device, error \x7d` or `\x7b device, flash: state \x7d`. -/
inductive ResultOutcome
| error (e : String)
| flash (s : FinishState)
deriving DecidableEq, Repr

/-- One entry of the `results` array of `lib/cli/etcher.js`. -/
structure ResultEntry where
  device : String
  out : ResultOutcome
deriving DecidableEq, Repr

/-- JavaScript `Map.prototype.set` on an association list: replace in
place when the key is present (insertion order kept), append otherwise. -/
def mapSet (m : List (String × FlashState)) (k : String) (v : FlashState) :
    List (String × FlashState) :=
  if m.any (fun p => p.1 == k) then
    m.map (fun p => if p.1 == k then (k, v) else p)
  else
    m ++ [(k, v)]

/-- JavaScript `Map.prototype.delete` on an association list. -/
def mapDelete (m : List (String × FlashState)) (k : String) :
    List (String × FlashState) :=
  m.filter (fun p => p.1 != k)

/-- JavaScript `Map.prototype.get` on an association list. -/
def mapLookup (m : List (String × FlashState)) (k : String) : Option FlashState :=
  match m with
  | [] => none
  | p :: rest => if p.1 == k then some p.2 else mapLookup rest k

/-- JavaScript `Map.prototype.set` restricted to the key set, for the `writers` map
(the CLI stores writer objects; only the keys matter to the control flow). -/
def setKey (l : List String) (k : String) : List String :=
  if l.any (fun x => x == k) then l else l ++ [k]

/-- The closure state of the `new Bluebird((resolve, reject) => ...)`
block of `lib/cli/etcher.js`: `results`, the key set of `writers`, the
`states` map, the mutable `progress` object, the sequence of progress-bar
updates performed so far (line 134), and the one-shot resolution slot of
the surrounding promise. -/
structure OrchState where
  results : List ResultEntry
  writers : List String
  states : List (String × FlashState)
  progress : Progress
  emitted : List Progress
  resolved : Option (List ResultEntry)
deriving DecidableEq, Repr

/-- Bluebird `resolve`: settling an already-settled promise is a no-op. -/
def resolveOnce (r : Option (List ResultEntry)) (v : List ResultEntry) :
    Option (List ResultEntry) :=
  match r with
  | some x => some x
  | none => some v

/-- Source `onProgress` (lines 103-135): store the latest snapshot under its
device key, recount the writing sessions, re-sum every numeric field over
the map, divide by the map size, pick `write` when at least one session is
still writing and `check` otherwise, and push the combined snapshot to the
progress bar. -/
def onProgress (st : OrchState) (state : FlashState) : OrchState :=
  let states := mapSet st.states state.device state
  let length : ℚ := states.length
  let writing : Nat := (states.filter (fun p => p.2.type == FlashPhase.write)).length
  let acc : Progress := states.foldl (fun pr q => accumulate pr q.2) (resetProgress st.progress)
  let progress : Progress :=
    { type := if writing > 0 then FlashPhase.write else FlashPhase.check,
      delta := acc.delta / length,
      transferred := acc.transferred / length,
      percentage := acc.percentage / length,
      remaining := acc.remaining / length,
      runtime := acc.runtime / length,
      speed := acc.speed / length,
      eta := acc.eta / length }
  { st with
    states := states, progress := progress,
    emitted := st.emitted ++ [progress] }

/-- Source `onError` (lines 137-144): the handler runs with `this` bound to the
emitting writer, so `this.options.path` is the device the handler was
registered for — passed here as `device`.  Record the failure, drop the
writer and its state entry, and resolve when no writer remains. -/
def onError (st : OrchState) (device : String) (error : String) : OrchState :=
  let results := st.results ++ [{ device := device, out := ResultOutcome.error error }]
  let writers := st.writers.filter (fun x => x != device)
  let states := mapDelete st.states device
  let resolved := if writers.isEmpty then resolveOnce st.resolved results else st.resolved
  { st with results := results, writers := writers, states := states, resolved := resolved }

/-- Source `onFinish` (lines 146-153): same shape as `onError` with a success
entry. -/
def onFinish (st : OrchState) (device : String) (state : FinishState) : OrchState :=
  let results := st.results ++ [{ device := device, out := ResultOutcome.flash state }]
  let writers := st.writers.filter (fun x => x != device)
  let states := mapDelete st.states device
  let resolved := if writers.isEmpty then resolveOnce st.resolved results else st.resolved
  { st with results := results, writers := writers, states := states, resolved := resolved }

/-- An event delivered to the CLI orchestrator by one of its writers.  For
`error` and `finish` the device identifies the emitting writer (the
EventEmitter receiver that `this.options.path` reads). -/
inductive Event
| progress (s : FlashState)
| error (device : String) (e : String)
| finish (device : String) (s : FinishState)
deriving DecidableEq, Repr

/-- Dispatch one writer event to the matching handler. -/
def step (st : OrchState) (e : Event) : OrchState :=
  match e with
  | Event.progress s => onProgress st s
  | Event.error d err => onError st d err
  | Event.finish d s => onFinish st d s

/-- The state right after the `answers.drive.forEach` loop (lines
155-171): every destination registered in `writers`, nothing else touched. -/
def initState (destinations : List String) : OrchState :=
  { results := [], writers := destinations.foldl setKey [],
    states := [], progress := initProgress, emitted := [], resolved := none }

/-- Run the orchestrator over a sequence of writer events. -/
def run (destinations : List String) (t : List Event) : OrchState :=
  t.foldl step (initState destinations)

/-- The result entry a single event contributes (terminal events only). -/
def entryOf : Event → Option ResultEntry
  | Event.progress _ => none
  | Event.error d e => some { device := d, out := ResultOutcome.error e }
  | Event.finish d s => some { device := d, out := ResultOutcome.flash s }

/-- The result entries contributed by a trace, in trace (completion) order. -/
def traceResults (t : List Event) : List ResultEntry :=
  t.filterMap entryOf

/-- Devices of the terminal events of a trace, in completion order. -/
def termDevices (t : List Event) : List String :=
  (traceResults t).map ResultEntry.device

/-- Modelled from the spec: the shared exit-codes module
(`shared/exit-codes`) is not under src; §6 fixes success to 0 and names a
distinct validation-error code and a distinct general-error code. -/
structure ExitCodes where
  SUCCESS : Nat
  GENERAL_ERROR : Nat
  VALIDATION_ERROR : Nat
deriving DecidableEq, Repr

/-- The concrete code values used by the model (success is 0 per §6; the
other two are arbitrary distinct nonzero values). -/
def EXIT_CODES : ExitCodes :=
  { SUCCESS := 0, GENERAL_ERROR := 1, VALIDATION_ERROR := 2 }

/-- Whether a result entry is a failure entry (`result.error` truthy in
the `results.forEach` of lines 177-184). -/
def isErrorEntry (r : ResultEntry) : Bool :=
  match r.out with
  | ResultOutcome.error _ => true
  | ResultOutcome.flash _ => false

/-- Exit-code computation of the resolution path (lines 173-186): start
from `SUCCESS`, switch to `GENERAL_ERROR` at every entry carrying an
error, keep the accumulator otherwise, exit with the final value. -/
def cliExitCode (results : List ResultEntry) : Nat :=
  results.foldl
    (fun code r =>
      match r.out with
      | ResultOutcome.error _ => EXIT_CODES.GENERAL_ERROR
      | ResultOutcome.flash _ => code)
    EXIT_CODES.SUCCESS

/-- Exit-code computation of the catch path (lines 188-198): the
validation code exactly when `error.code === EVALIDATION`, the general
error code otherwise. -/
def catchExitCode (code : Option String) : Nat :=
  if code = some ("EVALIDATION") then EXIT_CODES.VALIDATION_ERROR
  else EXIT_CODES.GENERAL_ERROR

/-- Reference aggregation, written from the words of spec §3/§4.2: the
combined phase is `write` exactly when the number of entries whose phase
is `write` is positive, and every numeric field is the arithmetic mean of
that field over the snapshots currently in the map. -/
def specAggregate (snaps : List FlashState) : Progress :=
  let n : ℚ := snaps.length
  let writingCount : Nat := snaps.countP (fun x => x.type == FlashPhase.write)
  { type := if writingCount > 0 then FlashPhase.write else FlashPhase.check,
    delta := (snaps.map FlashState.delta).sum / n,
    transferred := (snaps.map FlashState.transferred).sum / n,
    percentage := (snaps.map FlashState.percentage).sum / n,
    remaining := (snaps.map FlashState.remaining).sum / n,
    runtime := (snaps.map FlashState.runtime).sum / n,
    speed := (snaps.map FlashState.speed).sum / n,
    eta := (snaps.map FlashState.eta).sum / n }

/-!
The IPC child-writer worker (unnamed source part).
-/

/-- A JavaScript error object as handled by the worker (only the
`message` field matters to the embedded control flow; the handler's
attempt to attach a `device` field faults before succeeding). -/
structure ErrorObj where
  message : String
deriving DecidableEq, Repr

/-- The `drive` sub-object of a worker flash result (`result.drive.device`). -/
structure CwDrive where
  device : String
deriving DecidableEq, Repr

/-- A worker flash result as pushed onto `results` by `onFinish`. -/
structure CwResult where
  drive : CwDrive
  checksum : String
deriving DecidableEq, Repr

/-- Messages emitted to the IPC server, in emission order.  Per-device
errors (line 166, with a `device` attached) are distinguished from the
generic error emitted by `handleError` (line 84). -/
inductive IpcMsg
| log (message : String)
| state (s : FlashState)
| deviceError (device : String) (payload : ErrorObj)
| genericError (payload : ErrorObj)
| done (results : List CwResult)
| ready
deriving DecidableEq, Repr

/-- The receiver captured by the worker's arrow-function handlers: in a
CommonJS module, top-level `this` is `module.exports`, a plain empty
object, so it has no `destinationDevice` property. -/
structure ModuleCtx where
  destinationDevice : Option CwDrive
deriving DecidableEq, Repr

/-- The module context the arrow functions close over: empty. -/
def moduleThis : ModuleCtx := { destinationDevice := none }

/-- Payload of the `write` command (lines 114-118). -/
structure CwOptions where
  imagePath : String
  destinations : List String
  unmountOnSuccess : Bool
  validateWriteOnSuccess : Bool
  checksumAlgorithms : List String
deriving DecidableEq, Repr

/-- Worker state inside the `write` handler: the mutable `exitCode`,
the key set of the `writers` map, the `results` array, everything emitted
so far, and the pending `process.exit` code once `terminate` ran. -/
structure CwState where
  exitCode : Nat
  writers : List String
  results : List CwResult
  sent : List IpcMsg
  terminated : Option Nat
deriving DecidableEq, Repr

/-- Source `terminate` (lines 66-71): disconnect and exit with
`code || EXIT_CODES.SUCCESS`. -/
def cwTerminate (st : CwState) (code : Nat) : CwState :=
  { st with terminated := some (if code = 0 then EXIT_CODES.SUCCESS else code) }

/-- Source `handleError` (lines 83-86), installed as the `uncaughtException`
handler: emit a generic `error` event (the JSON form of the fault) and
terminate with the general-error code. -/
def cwHandleError (st : CwState) (error : ErrorObj) : CwState :=
  cwTerminate { st with sent := st.sent ++ [IpcMsg.genericError error] }
    EXIT_CODES.GENERAL_ERROR

/-- Worker `onProgress` (lines 130-132): forward the received snapshot,
unchanged, as a `state` event. -/
def cwOnProgress (st : CwState) (state : FlashState) : CwState :=
  { st with sent := st.sent ++ [IpcMsg.state state] }

/-- Worker `onFinish` (lines 140-154).  Called with no argument from
`onError`, the opening log line would dereference `result.drive` on
`undefined` and throw, landing in the `uncaughtException` handler; called
with a result from a writer `finish` event, it logs, records the result,
drops the writer, and on an empty writer map emits `done` and terminates
with the accumulated exit code. -/
def cwOnFinish (st : CwState) (result : Option CwResult) : CwState :=
  match result with
  | none => cwHandleError st
      { message := ("Cannot read properties of undefined (reading device)") }
  | some r =>
    let st1 := { st with sent := st.sent ++ [IpcMsg.log (("Finish: ") ++ r.drive.device)] }
    let st2 := { st1 with
      results := st1.results ++ [r],
      writers := st1.writers.filter (fun x => x != r.drive.device) }
    if st2.writers.isEmpty then
      cwTerminate { st2 with sent := st2.sent ++ [IpcMsg.done st2.results] } st2.exitCode
    else st2

/-- Worker `onError` (lines 162-170), an arrow function: after logging
and setting the exit code, line 165 reads `this.destinationDevice.device`
where `this` is `moduleThis` — there is no `destinationDevice`, so the
read throws a TypeError that the `uncaughtException` handler receives;
the per-device `error` emission and the `onFinish()` call are never
reached.  The unreachable branch is kept for fidelity to the source text. -/
def cwOnError (st : CwState) (error : ErrorObj) : CwState :=
  let st1 := { st with sent := st.sent ++ [IpcMsg.log error.message] }
  let st2 := { st1 with exitCode := EXIT_CODES.GENERAL_ERROR }
  match moduleThis.destinationDevice with
  | none => cwHandleError st2
      { message := ("Cannot read properties of undefined (reading device)") }
  | some dd =>
    let st3 := { st2 with sent := st2.sent ++ [IpcMsg.deviceError dd.device error] }
    cwOnFinish st3 none

/-- An event delivered to the worker by one of its writers.  For `error`,
the device names the emitting writer; the handler itself has no access to
it (that is the defect under study), the field only ties the event to a
session for trace well-formedness. -/
inductive CwEvent
| progress (s : FlashState)
| error (device : String) (err : ErrorObj)
| finish (r : CwResult)
deriving DecidableEq, Repr

/-- Dispatch one writer event.  After `terminate` ran, the process is
gone and no further handler executes. -/
def cwStep (st : CwState) (e : CwEvent) : CwState :=
  if st.terminated.isSome then st
  else
    match e with
    | CwEvent.progress s => cwOnProgress st s
    | CwEvent.error _ err => cwOnError st err
    | CwEvent.finish r => cwOnFinish st (some r)

/-- The worker state right after the `_.forEach(options.destinations,...)`
loop (lines 176-192): the four informational log lines of 115-118 sent,
every destination registered. -/
def cwInit (opts : CwOptions) : CwState :=
  { exitCode := EXIT_CODES.SUCCESS,
    writers := opts.destinations.foldl setKey [],
    results := [],
    sent :=
      [IpcMsg.log (("Image: ") ++ opts.imagePath),
       IpcMsg.log (("Devices: ") ++ String.intercalate (", ") opts.destinations),
       IpcMsg.log (("Umount on success: ") ++ toString opts.unmountOnSuccess),
       IpcMsg.log (("Validate on success: ") ++ toString opts.validateWriteOnSuccess)],
    terminated := none }

/-- Run the worker over a sequence of writer events. -/
def cwRun (opts : CwOptions) (t : List CwEvent) : CwState :=
  t.foldl cwStep (cwInit opts)

/-- The device whose session a worker event terminates, if any. -/
def cwTermDevice : CwEvent → Option String
  | CwEvent.progress _ => none
  | CwEvent.error d _ => some d
  | CwEvent.finish r => some r.drive.device

/-- Devices of the terminal worker events of a trace, in order. -/
def cwTermDevices (t : List CwEvent) : List String :=
  t.filterMap cwTermDevice

/-!
Helper lemmas about the association-list model of JavaScript `Map`.
-/

/-- The map is never empty right after a `set`. -/
theorem mapSet_length_pos (m : List (String × FlashState)) (k : String)
    (v : FlashState) : 0 < (mapSet m k v).length := by
  unfold mapSet
  split
  · next h =>
    rcases List.any_eq_true.mp h with ⟨p, hp, _⟩
    cases m with
    | nil => cases hp
    | cons a l => simp
  · simp

/-- Every entry of the map after a `set` is an old entry or the new one. -/
theorem mapSet_mem (m : List (String × FlashState)) (k : String)
    (v : FlashState) (q : String × FlashState) (hq : q ∈ mapSet m k v) :
    q ∈ m ∨ q = (k, v) := by
  unfold mapSet at hq
  split at hq
  · rcases List.mem_map.mp hq with ⟨p, hp, hpq⟩
    by_cases h : p.1 == k
    · rw [if_pos h] at hpq
      exact Or.inr hpq.symm
    · rw [if_neg h] at hpq
      exact Or.inl (hpq ▸ hp)
  · rcases List.mem_append.mp hq with h | h
    · exact Or.inl h
    · simp only [List.mem_singleton] at h
      exact Or.inr h

/-- Lookup of a key under an in-place replacement of a different key. -/
theorem mapLookup_map_replace (m : List (String × FlashState)) (k : String)
    (v : FlashState) (d : String) (h : d ≠ k) :
    mapLookup (m.map (fun p => if p.1 == k then (k, v) else p)) d = mapLookup m d := by
  induction m with
  | nil => rfl
  | cons p rest ih =>
    simp only [List.map_cons, mapLookup]
    by_cases hp : p.1 == k
    · rw [if_pos hp]
      have hk : ¬ ((k == d) = true) := by
        simp only [beq_iff_eq]
        exact fun hkd => h hkd.symm
      have hpd : ¬ ((p.1 == d) = true) := by
        simp only [beq_iff_eq] at hp ⊢
        rw [hp]
        exact fun hkd => h hkd.symm
      simp only [mapLookup]
      rw [if_neg hk, if_neg hpd]
      exact ih
    · rw [if_neg hp]
      by_cases hpd : p.1 == d
      · rw [if_pos hpd, if_pos hpd]
      · rw [if_neg hpd, if_neg hpd]
        exact ih

/-- Lookup of a key under an append of a different key. -/
theorem mapLookup_append_ne (m : List (String × FlashState)) (k : String)
    (v : FlashState) (d : String) (h : d ≠ k) :
    mapLookup (m ++ [(k, v)]) d = mapLookup m d := by
  induction m with
  | nil =>
    simp only [List.nil_append, mapLookup]
    have hk : ¬ ((k == d) = true) := by
      simp only [beq_iff_eq]
      exact fun hkd => h hkd.symm
    rw [if_neg hk]
  | cons p rest ih =>
    simp only [List.cons_append, mapLookup]
    by_cases hpd : p.1 == d
    · rw [if_pos hpd, if_pos hpd]
    · rw [if_neg hpd, if_neg hpd]
      exact ih

/-- Looking up a key other than the one just set is unchanged. -/
theorem mapLookup_mapSet_ne (m : List (String × FlashState)) (k : String)
    (v : FlashState) (d : String) (h : d ≠ k) :
    mapLookup (mapSet m k v) d = mapLookup m d := by
  unfold mapSet
  split
  · exact mapLookup_map_replace m k v d h
  · exact mapLookup_append_ne m k v d h

/-- Deleting a key removes it from lookup. -/
theorem mapLookup_mapDelete_self (m : List (String × FlashState)) (k : String) :
    mapLookup (mapDelete m k) k = none := by
  unfold mapDelete
  induction m with
  | nil => rfl
  | cons p rest ih =>
    simp only [List.filter_cons]
    by_cases hp : p.1 == k
    · have : (p.1 != k) = false := by simp [bne, hp]
      rw [this]
      exact ih
    · have : (p.1 != k) = true := by simp [bne, hp]
      rw [this]
      simp only [mapLookup, hp, if_neg, if_false]
      exact ih

/-- Deleting one key leaves every other lookup unchanged. -/
theorem mapLookup_mapDelete_ne (m : List (String × FlashState)) (k d : String)
    (h : d ≠ k) : mapLookup (mapDelete m k) d = mapLookup m d := by
  unfold mapDelete
  induction m with
  | nil => rfl
  | cons p rest ih =>
    simp only [List.filter_cons, mapLookup]
    by_cases hpk : p.1 == k
    · have hb : (p.1 != k) = false := by simp [bne, hpk]
      rw [hb]
      have hpd : ¬ ((p.1 == d) = true) := by
        simp only [beq_iff_eq] at hpk ⊢
        rw [hpk]
        exact fun hkd => h hkd.symm
      rw [if_neg hpd]
      exact ih
    · have hb : (p.1 != k) = true := by simp [bne, hpk]
      rw [hb]
      simp only [mapLookup]
      by_cases hpd : p.1 == d
      · rw [if_pos hpd, if_pos hpd]
      · rw [if_neg hpd, if_neg hpd]
        exact ih

/-- The `forEach` accumulation loop computes, field by field, the initial
value plus the sum of that field over the map entries. -/
theorem foldl_accumulate (m : List (String × FlashState)) (p0 : Progress) :
    m.foldl (fun pr q => accumulate pr q.2) p0 =
      { type := p0.type,
        delta := p0.delta + (m.map (fun q => q.2.delta)).sum,
        transferred := p0.transferred + (m.map (fun q => q.2.transferred)).sum,
        percentage := p0.percentage + (m.map (fun q => q.2.percentage)).sum,
        remaining := p0.remaining + (m.map (fun q => q.2.remaining)).sum,
        runtime := p0.runtime + (m.map (fun q => q.2.runtime)).sum,
        speed := p0.speed + (m.map (fun q => q.2.speed)).sum,
        eta := p0.eta + (m.map (fun q => q.2.eta)).sum } := by
  induction m generalizing p0 with
  | nil => simp
  | cons q rest ih =>
    simp only [List.foldl_cons, List.map_cons, List.sum_cons]
    rw [ih]
    simp [accumulate, add_assoc, Progress.mk.injEq]

/-- The combined snapshot computed by `onProgress` is exactly the
reference aggregation of spec §3/§4.2 applied to the snapshots in the
updated latest-known-state map. -/
theorem onProgress_eq_specAggregate (st : OrchState) (s : FlashState) :
    (onProgress st s).progress =
      specAggregate ((mapSet st.states s.device s).map Prod.snd) := by
  unfold onProgress specAggregate
  simp only [foldl_accumulate, resetProgress, List.map_map, List.length_map,
    List.countP_map, List.countP_eq_length_filter, Function.comp_def, zero_add,
    Progress.mk.injEq]
  constructor
  · rw [List.filter_map]
    simp [Function.comp_def]
  · simp

/-!
Arithmetic-mean bounds.
-/

/-- A mean of nonnegative rationals is nonnegative. -/
theorem mean_nonneg (l : List ℚ) (h : ∀ x ∈ l, 0 ≤ x) :
    0 ≤ l.sum / (l.length : ℚ) :=
  div_nonneg (List.sum_nonneg h) (by positivity)

/-- A mean of rationals bounded above by `c` is bounded by `c`
(nonempty list). -/
theorem mean_le (l : List ℚ) (c : ℚ) (h : ∀ x ∈ l, x ≤ c) (hne : l ≠ []) :
    l.sum / (l.length : ℚ) ≤ c := by
  have hlen : 0 < (l.length : ℚ) := by
    have := List.length_pos.mpr hne
    exact_mod_cast this
  rw [div_le_iff₀ hlen]
  have := List.sum_le_card_nsmul l c h
  simpa [nsmul_eq_mul, mul_comm] using this

/-!
Initialisation of the writer key set.
-/

/-- Registering pairwise-distinct fresh keys appends them in order. -/
theorem foldl_setKey_of_nodup (l acc : List String)
    (hd : ∀ x ∈ l, x ∉ acc) (hnd : l.Nodup) :
    l.foldl setKey acc = acc ++ l := by
  induction l generalizing acc with
  | nil => simp
  | cons a rest ih =>
    simp only [List.foldl_cons]
    have ha : setKey acc a = acc ++ [a] := by
      unfold setKey
      rw [if_neg]
      intro hany
      rcases List.any_eq_true.mp hany with ⟨x, hx, hxa⟩
      rw [beq_iff_eq] at hxa
      exact hd a (List.mem_cons_self a rest) (hxa ▸ hx)
    rw [ha, ih]
    · simp
    · intro x hx
      rw [List.mem_append, List.mem_singleton]
      rintro (hxin | hxa)
      · exact hd x (List.mem_cons_of_mem a hx) hxin
      · rw [List.nodup_cons] at hnd
        exact hnd.1 (hxa ▸ hx)
    · exact (List.nodup_cons.mp hnd).2

/-- For a duplicate-free destination list the initial writer key set is
the destination list itself. -/
theorem initState_writers (dests : List String) (hnd : dests.Nodup) :
    (initState dests).writers = dests := by
  unfold initState
  simpa using foldl_setKey_of_nodup dests [] (by simp) hnd

/-!
Trace decomposition.
-/

/-- Appending traces composes the runs. -/
theorem run_append (dests : List String) (t u : List Event) :
    run dests (t ++ u) = u.foldl step (run dests t) := by
  unfold run
  rw [List.foldl_append]

/-- Function `traceResults` distributes over append. -/
theorem traceResults_append (t u : List Event) :
    traceResults (t ++ u) = traceResults t ++ traceResults u := by
  unfold traceResults
  rw [List.filterMap_append]

/-- Function `termDevices` distributes over append. -/
theorem termDevices_append (t u : List Event) :
    termDevices (t ++ u) = termDevices t ++ termDevices u := by
  unfold termDevices
  rw [traceResults_append, List.map_append]

/-- Handler `onProgress` does not touch the control state. -/
theorem onProgress_control (st : OrchState) (s : FlashState) :
    (onProgress st s).results = st.results ∧
    (onProgress st s).writers = st.writers ∧
    (onProgress st s).resolved = st.resolved := by
  unfold onProgress
  exact ⟨rfl, rfl, rfl⟩

/-- Removing a freshly terminated device from the active filter equals
filtering against the grown terminal set. -/
theorem filter_remove_terminal (dests T : List String) (d : String) :
    (dests.filter (fun x => decide (x ∉ T))).filter (fun x => x != d) =
      dests.filter (fun x => decide (x ∉ T ++ [d])) := by
  rw [List.filter_filter]
  apply List.filter_congr
  intro x hx
  by_cases hxd : x = d
  · subst hxd
    simp [List.mem_append]
  · by_cases hT : x ∈ T
    · simp [hT, hxd, List.mem_append]
    · simp [hT, hxd, List.mem_append]

/-- The active filter is empty exactly when every destination is
terminated. -/
theorem filter_not_mem_eq_nil_iff (dests T : List String) :
    dests.filter (fun x => decide (x ∉ T)) = [] ↔ ∀ x ∈ dests, x ∈ T := by
  rw [List.filter_eq_nil_iff]
  constructor
  · intro h x hx
    have := h x hx
    simpa using this
  · intro h x hx
    simpa using h x hx

/-- Control-state invariant of the CLI orchestrator.  As long as only
requested devices terminate and none terminates twice: the result list is
the trace's terminal record in completion order, the writer key set is the
set of not-yet-terminated destinations in input order, and the promise is
settled exactly when the destination list is nonempty and fully
terminated — with the accumulated results as its value. -/
theorem run_control_invariant (dests : List String) (hnd : dests.Nodup)
    (t : List Event) (hsub : ∀ x ∈ termDevices t, x ∈ dests)
    (htnd : (termDevices t).Nodup) :
    (run dests t).results = traceResults t ∧
    (run dests t).writers = dests.filter (fun x => decide (x ∉ termDevices t)) ∧
    (run dests t).resolved =
      (if dests ≠ [] ∧ ∀ x ∈ dests, x ∈ termDevices t
       then some (traceResults t) else none) := by
  induction t using List.reverseRecOn with
  | nil =>
    refine ⟨rfl, ?_, ?_⟩
    · have h1 : (run dests []).writers = dests := initState_writers dests hnd
      rw [h1]
      simp [termDevices, traceResults]
    · rw [if_neg]
      · rfl
      · rintro ⟨hne, hall⟩
        obtain ⟨x, hx⟩ := List.exists_mem_of_ne_nil dests hne
        have hmem := hall x hx
        simp [termDevices, traceResults] at hmem
  | append_singleton l e ih =>
    have hsub' : ∀ x ∈ termDevices l, x ∈ dests := by
      intro x hx
      refine hsub x ?_
      rw [termDevices_append]
      exact List.mem_append_left _ hx
    have htnd' : (termDevices l).Nodup := by
      rw [termDevices_append] at htnd
      exact htnd.of_append_left
    obtain ⟨ihR, ihW, ihV⟩ := ih hsub' htnd'
    rw [run_append]
    cases e with
    | progress s =>
      simp only [List.foldl_cons, List.foldl_nil, step]
      have hT : termDevices (l ++ [Event.progress s]) = termDevices l := by
        rw [termDevices_append]
        simp [termDevices, traceResults, entryOf]
      have hR : traceResults (l ++ [Event.progress s]) = traceResults l := by
        rw [traceResults_append]
        simp [traceResults, entryOf]
      rw [hT, hR]
      have hc := onProgress_control (run dests l) s
      exact ⟨hc.1.trans ihR, hc.2.1.trans ihW, hc.2.2.trans ihV⟩
    | error d er =>
      simp only [List.foldl_cons, List.foldl_nil, step]
      have hT : termDevices (l ++ [Event.error d er]) = termDevices l ++ [d] := by
        rw [termDevices_append]
        simp [termDevices, traceResults, entryOf]
      have hR : traceResults (l ++ [Event.error d er]) =
          traceResults l ++ [{ device := d, out := ResultOutcome.error er }] := by
        rw [traceResults_append]
        simp [traceResults, entryOf]
      rw [hT, hR]
      have hdmem : d ∈ dests := by
        refine hsub d ?_
        rw [hT]
        exact List.mem_append_right _ (List.mem_singleton_self d)
      have htnd2 : (termDevices l ++ [d]).Nodup := hT ▸ htnd
      have hdT : d ∉ termDevices l := by
        rcases List.nodup_append.mp htnd2 with ⟨-, -, hdisj⟩
        intro hmem
        exact hdisj hmem (List.mem_singleton_self d)
      have hpre : (run dests l).resolved = none := by
        rw [ihV, if_neg]
        rintro ⟨-, hall⟩
        exact hdT (hall d hdmem)
      unfold onError
      refine ⟨by rw [ihR], ?_, ?_⟩
      · show (run dests l).writers.filter (fun x => x != d) = _
        rw [ihW, filter_remove_terminal]
      · show (if ((run dests l).writers.filter (fun x => x != d)).isEmpty
            then resolveOnce (run dests l).resolved
              ((run dests l).results ++ [{ device := d, out := ResultOutcome.error er }])
            else (run dests l).resolved) = _
        rw [ihW, ihR, hpre, filter_remove_terminal]
        by_cases hcov : ∀ x ∈ dests, x ∈ termDevices l ++ [d]
        · rw [if_pos, if_pos]
          · rfl
          · exact ⟨List.ne_nil_of_mem hdmem, hcov⟩
          · rw [List.isEmpty_iff]
            exact (filter_not_mem_eq_nil_iff dests _).mpr hcov
        · rw [if_neg, if_neg]
          · rintro ⟨-, hall⟩
            exact hcov hall
          · rw [List.isEmpty_iff]
            intro hnil
            exact hcov ((filter_not_mem_eq_nil_iff dests _).mp hnil)
    | finish d fs =>
      simp only [List.foldl_cons, List.foldl_nil, step]
      have hT : termDevices (l ++ [Event.finish d fs]) = termDevices l ++ [d] := by
        rw [termDevices_append]
        simp [termDevices, traceResults, entryOf]
      have hR : traceResults (l ++ [Event.finish d fs]) =
          traceResults l ++ [{ device := d, out := ResultOutcome.flash fs }] := by
        rw [traceResults_append]
        simp [traceResults, entryOf]
      rw [hT, hR]
      have hdmem : d ∈ dests := by
        refine hsub d ?_
        rw [hT]
        exact List.mem_append_right _ (List.mem_singleton_self d)
      have htnd2 : (termDevices l ++ [d]).Nodup := hT ▸ htnd
      have hdT : d ∉ termDevices l := by
        rcases List.nodup_append.mp htnd2 with ⟨-, -, hdisj⟩
        intro hmem
        exact hdisj hmem (List.mem_singleton_self d)
      have hpre : (run dests l).resolved = none := by
        rw [ihV, if_neg]
        rintro ⟨-, hall⟩
        exact hdT (hall d hdmem)
      unfold onFinish
      refine ⟨by rw [ihR], ?_, ?_⟩
      · show (run dests l).writers.filter (fun x => x != d) = _
        rw [ihW, filter_remove_terminal]
      · show (if ((run dests l).writers.filter (fun x => x != d)).isEmpty
            then resolveOnce (run dests l).resolved
              ((run dests l).results ++ [{ device := d, out := ResultOutcome.flash fs }])
            else (run dests l).resolved) = _
        rw [ihW, ihR, hpre, filter_remove_terminal]
        by_cases hcov : ∀ x ∈ dests, x ∈ termDevices l ++ [d]
        · rw [if_pos, if_pos]
          · rfl
          · exact ⟨List.ne_nil_of_mem hdmem, hcov⟩
          · rw [List.isEmpty_iff]
            exact (filter_not_mem_eq_nil_iff dests _).mpr hcov
        · rw [if_neg, if_neg]
          · rintro ⟨-, hall⟩
            exact hcov hall
          · rw [List.isEmpty_iff]
            intro hnil
            exact hcov ((filter_not_mem_eq_nil_iff dests _).mp hnil)

/-- Field view of `onError`. -/
theorem onError_components (st : OrchState) (d er : String) :
    (onError st d er).results =
      st.results ++ [{ device := d, out := ResultOutcome.error er }] ∧
    (onError st d er).writers = st.writers.filter (fun x => x != d) ∧
    (onError st d er).states = mapDelete st.states d := by
  unfold onError
  exact ⟨rfl, rfl, rfl⟩

/-- Field view of `onFinish`. -/
theorem onFinish_components (st : OrchState) (d : String) (fs : FinishState) :
    (onFinish st d fs).results =
      st.results ++ [{ device := d, out := ResultOutcome.flash fs }] ∧
    (onFinish st d fs).writers = st.writers.filter (fun x => x != d) ∧
    (onFinish st d fs).states = mapDelete st.states d := by
  unfold onFinish
  exact ⟨rfl, rfl, rfl⟩

/-- A `states`-map key with no entry stays absent over any event suffix
that contains no progress event for it. -/
theorem mapLookup_none_preserved (st : OrchState) (d : String) (t : List Event)
    (h0 : mapLookup st.states d = none)
    (hcl : ∀ s, Event.progress s ∈ t → s.device ≠ d) :
    mapLookup ((t.foldl step st)).states d = none := by
  induction t generalizing st with
  | nil => exact h0
  | cons e rest ih =>
    simp only [List.foldl_cons]
    refine ih _ ?_ (fun s hs => hcl s (List.mem_cons_of_mem e hs))
    cases e with
    | progress s =>
      have hne : s.device ≠ d := hcl s (List.mem_cons_self _ _)
      show mapLookup (onProgress st s).states d = none
      unfold onProgress
      show mapLookup (mapSet st.states s.device s) d = none
      rw [mapLookup_mapSet_ne st.states s.device s d (fun hd => hne hd.symm)]
      exact h0
    | error d2 er2 =>
      show mapLookup (onError st d2 er2).states d = none
      rw [(onError_components st d2 er2).2.2]
      by_cases hdd : d = d2
      · subst hdd
        exact mapLookup_mapDelete_self _ _
      · rw [mapLookup_mapDelete_ne _ _ _ hdd]
        exact h0
    | finish d2 fs =>
      show mapLookup (onFinish st d2 fs).states d = none
      rw [(onFinish_components st d2 fs).2.2]
      by_cases hdd : d = d2
      · subst hdd
        exact mapLookup_mapDelete_self _ _
      · rw [mapLookup_mapDelete_ne _ _ _ hdd]
        exact h0

/-- C1: for every non-empty duplicate-free destination set and every event
trace in which exactly the requested destinations terminate, each exactly
once (the per-session event contract), the orchestration ends resolved
with exactly its accumulated result list; that list lists the terminal
events in completion order and holds exactly one entry per requested
destination; and on every prefix of the trace the promise is unresolved
precisely while some destination has not yet terminated — so resolution
happens exactly once, at the first point where all sessions are terminal. -/
theorem c1_resolves_once_one_entry_per_destination
    (dests : List String) (t : List Event)
    (hne : dests ≠ []) (hnd : dests.Nodup)
    (hperm : (termDevices t).Perm dests) :
    (run dests t).resolved = some (run dests t).results ∧
    (run dests t).results.map ResultEntry.device = termDevices t ∧
    (∀ d ∈ dests, ((run dests t).results.map ResultEntry.device).count d = 1) ∧
    (∀ p q, t = p ++ q →
      ((run dests p).resolved = none ↔ ¬ ∀ x ∈ dests, x ∈ termDevices p)) := by
  have hsub : ∀ x ∈ termDevices t, x ∈ dests := fun x hx => hperm.mem_iff.mp hx
  have htnd : (termDevices t).Nodup := hperm.nodup_iff.mpr hnd
  obtain ⟨hR, hW, hV⟩ := run_control_invariant dests hnd t hsub htnd
  have hcov : ∀ x ∈ dests, x ∈ termDevices t := fun x hx => hperm.mem_iff.mpr hx
  refine ⟨?_, ?_, ?_, ?_⟩
  · rw [hV, if_pos ⟨hne, hcov⟩, hR]
  · rw [hR]
    rfl
  · intro d hd
    rw [hR]
    show (termDevices t).count d = 1
    rw [hperm.count_eq]
    exact List.count_eq_one_of_mem hnd hd
  · intro p q hpq
    subst hpq
    have hsubp : ∀ x ∈ termDevices p, x ∈ dests := by
      intro x hx
      refine hsub x ?_
      rw [termDevices_append]
      exact List.mem_append_left _ hx
    have htndp : (termDevices p).Nodup := by
      rw [termDevices_append] at htnd
      exact htnd.of_append_left
    obtain ⟨-, -, hVp⟩ := run_control_invariant dests hnd p hsubp htndp
    rw [hVp]
    constructor
    · intro hnone hall
      rw [if_pos ⟨hne, hall⟩] at hnone
      cases hnone
    · intro hnall
      rw [if_neg]
      rintro ⟨-, hall⟩
      exact hnall hall

/-- Concrete progress snapshot used by the witnesses. -/
def wsA : FlashState :=
  { device := "a", type := FlashPhase.write, delta := 1, transferred := 10,
    percentage := 100, remaining := 0, runtime := 5, speed := 2, eta := 0 }

/-- A second concrete snapshot (verify phase, device `b`). -/
def wsB : FlashState :=
  { device := "b", type := FlashPhase.check, delta := 0, transferred := 0,
    percentage := 0, remaining := 0, runtime := 0, speed := 0, eta := 0 }

/-- Concrete finish payload used by the witnesses. -/
def wfA : FinishState := { checksum := { crc32 := "AAA" } }

/-- Witness for C1: a two-destination run in which `a` finishes and `b`
errors, with one interleaved progress event. -/
theorem c1_witness :
    (["a", "b"] : List String) ≠ [] ∧ (["a", "b"] : List String).Nodup ∧
    (termDevices [Event.progress wsA, Event.finish ("a") wfA,
      Event.error ("b") "boom"]).Perm ["a", "b"] ∧
    ((run ["a", "b"] [Event.progress wsA, Event.finish ("a") wfA,
        Event.error ("b") "boom"]).resolved =
      some (run ["a", "b"] [Event.progress wsA, Event.finish ("a") wfA,
        Event.error ("b") "boom"]).results) :=
  ⟨by decide, by decide, by decide,
    (c1_resolves_once_one_entry_per_destination ["a", "b"]
      [Event.progress wsA, Event.finish ("a") wfA, Event.error ("b") "boom"]
      (by decide) (by decide) (by decide)).1⟩

/-- C2: in a multi-destination run obeying the per-session event contract,
a device error event is isolated: the failing device's error entry is
recorded in the result set, the device leaves the writer set and the
state map (and stays out, given no late progress for it), every other
requested destination still ends with exactly one result entry, the
orchestration still resolves with the accumulated results once all
devices are terminal, and the error step itself leaves every other
device's writer-set membership and state entry untouched. -/
theorem c2_device_error_isolated
    (dests : List String) (t1 t2 : List Event) (d er : String)
    (hlen : 2 ≤ dests.length) (hnd : dests.Nodup)
    (hperm : (termDevices (t1 ++ Event.error d er :: t2)).Perm dests)
    (hclean : ∀ s, Event.progress s ∈ t2 → s.device ≠ d) :
    ({ device := d, out := ResultOutcome.error er } : ResultEntry) ∈
      (run dests (t1 ++ Event.error d er :: t2)).results ∧
    d ∉ (run dests (t1 ++ Event.error d er :: t2)).writers ∧
    mapLookup (run dests (t1 ++ Event.error d er :: t2)).states d = none ∧
    (run dests (t1 ++ Event.error d er :: t2)).resolved =
      some (run dests (t1 ++ Event.error d er :: t2)).results ∧
    (∀ x ∈ dests,
      ((run dests (t1 ++ Event.error d er :: t2)).results.map
        ResultEntry.device).count x = 1) ∧
    (∀ (st : OrchState) (x : String), x ≠ d →
      ((x ∈ (onError st d er).writers ↔ x ∈ st.writers) ∧
        mapLookup (onError st d er).states x = mapLookup st.states x)) := by
  have hne : dests ≠ [] := by
    intro h
    rw [h] at hlen
    simp at hlen
  have hsub : ∀ x ∈ termDevices (t1 ++ Event.error d er :: t2), x ∈ dests :=
    fun x hx => hperm.mem_iff.mp hx
  have htnd : (termDevices (t1 ++ Event.error d er :: t2)).Nodup :=
    hperm.nodup_iff.mpr hnd
  have hcov : ∀ x ∈ dests, x ∈ termDevices (t1 ++ Event.error d er :: t2) :=
    fun x hx => hperm.mem_iff.mpr hx
  obtain ⟨hR, hW, hV⟩ :=
    run_control_invariant dests hnd (t1 ++ Event.error d er :: t2) hsub htnd
  have hdterm : d ∈ termDevices (t1 ++ Event.error d er :: t2) := by
    unfold termDevices traceResults
    rw [List.filterMap_append, List.map_append]
    refine List.mem_append_right _ ?_
    simp [entryOf]
  refine ⟨?_, ?_, ?_, ?_, ?_, ?_⟩
  · rw [hR]
    unfold traceResults
    rw [List.filterMap_append]
    refine List.mem_append_right _ ?_
    simp [entryOf]
  · rw [hW]
    intro hmem
    rw [List.mem_filter] at hmem
    have := hmem.2
    simp only [decide_eq_true_eq] at this
    exact this hdterm
  · rw [List.append_cons, run_append]
    refine mapLookup_none_preserved _ d t2 ?_ hclean
    rw [run_append]
    simp only [List.foldl_cons, List.foldl_nil, step]
    rw [(onError_components (run dests t1) d er).2.2]
    exact mapLookup_mapDelete_self _ _
  · rw [hV, if_pos ⟨hne, hcov⟩, hR]
  · intro x hx
    rw [hR]
    show (termDevices (t1 ++ Event.error d er :: t2)).count x = 1
    rw [hperm.count_eq]
    exact List.count_eq_one_of_mem hnd hx
  · intro st x hxd
    refine ⟨?_, ?_⟩
    · rw [(onError_components st d er).2.1, List.mem_filter]
      constructor
      · exact fun h => h.1
      · intro h
        refine ⟨h, ?_⟩
        simp [hxd]
    · rw [(onError_components st d er).2.2]
      exact mapLookup_mapDelete_ne st.states d x hxd

/-- Witness for C2: `a` errors first, then `b` finishes. -/
theorem c2_witness :
    2 ≤ (["a", "b"] : List String).length ∧
    (termDevices ([] ++ Event.error ("a") "boom" ::
      [Event.finish ("b") wfA])).Perm ["a", "b"] ∧
    (∀ s, Event.progress s ∈ [Event.finish ("b") wfA] → s.device ≠ "a") ∧
    ({ device := "a", out := ResultOutcome.error ("boom") } : ResultEntry) ∈
      (run ["a", "b"] ([] ++ Event.error ("a") "boom" ::
        [Event.finish ("b") wfA])).results :=
  ⟨by decide, by decide,
    (by
      intro s hs
      simp at hs),
    (c2_device_error_isolated ["a", "b"] [] [Event.finish ("b") wfA] "a" "boom"
      (by decide) (by decide) (by decide)
      (by
        intro s hs
        simp at hs)).1⟩

/-- C5: after every progress update, the snapshot computed by `onProgress`
equals the reference definition written from the spec: combined phase is
`write` iff the count of map entries in the write phase is positive
(`verify`/`check` otherwise), and every numeric field is the arithmetic
mean of that field over the entries currently in the map. -/
theorem c5_aggregate_matches_reference (st : OrchState) (s : FlashState) :
    (onProgress st s).progress =
      specAggregate ((mapSet st.states s.device s).map Prod.snd) :=
  onProgress_eq_specAggregate st s

/-- C6 counterexample: the handlers do not reject a late progress event —
after device `a` has finished (terminal event processed, entry removed),
a progress event for `a` is processed normally and re-inserts `a` into
the aggregation map. -/
theorem c6_counterexample :
    mapLookup (run ["a", "b"]
      [Event.finish ("a") wfA, Event.progress wsA]).states ("a") = some wsA := by
  decide

/-- C6 amended: the handlers contain no guard, so the no-reentry property
holds only under the per-session ordering contract — if after a device's
terminal event no progress event for that device is delivered, then the
device never re-enters the aggregation map. -/
theorem c6_no_reentry_under_session_order
    (dests : List String) (t1 t2 : List Event) (e : Event) (d : String)
    (hterm : termDevices [e] = [d])
    (hclean : ∀ s, Event.progress s ∈ t2 → s.device ≠ d) :
    mapLookup (run dests (t1 ++ e :: t2)).states d = none := by
  rw [List.append_cons, run_append]
  refine mapLookup_none_preserved _ d t2 ?_ hclean
  rw [run_append]
  simp only [List.foldl_cons, List.foldl_nil]
  cases e with
  | progress s =>
    simp [termDevices, traceResults, entryOf] at hterm
  | error d2 er =>
    have hd2 : d2 = d := by
      simpa [termDevices, traceResults, entryOf] using hterm
    subst hd2
    show mapLookup (onError (run dests t1) d2 er).states d2 = none
    rw [(onError_components (run dests t1) d2 er).2.2]
    exact mapLookup_mapDelete_self _ _
  | finish d2 fs =>
    have hd2 : d2 = d := by
      simpa [termDevices, traceResults, entryOf] using hterm
    subst hd2
    show mapLookup (onFinish (run dests t1) d2 fs).states d2 = none
    rw [(onFinish_components (run dests t1) d2 fs).2.2]
    exact mapLookup_mapDelete_self _ _

/-- Witness for the amended C6. -/
theorem c6_witness :
    termDevices [Event.finish ("a") wfA] = ["a"] ∧
    mapLookup (run ["a", "b"] ([Event.progress wsA] ++
      Event.finish ("a") wfA :: [Event.progress wsB])).states ("a") = none :=
  ⟨by decide,
    c6_no_reentry_under_session_order ["a", "b"] [Event.progress wsA]
      [Event.progress wsB] (Event.finish ("a") wfA) "a" (by decide)
      (by
        intro s hs
        simp at hs
        subst hs
        decide)⟩

/-- C7 counterexample: delivering `finish` twice for the single device
`a` leaves two entries for `a` in the result set — the second delivery is
not a no-op and the device is double-counted. -/
theorem c7_counterexample :
    ((run ["a"] [Event.finish ("a") wfA, Event.finish ("a") wfA]).results.map
      ResultEntry.device).count ("a") = 2 ∧
    ¬ ((run ["a"] [Event.finish ("a") wfA, Event.finish ("a") wfA]).results.map
      ResultEntry.device).count ("a") = 1 := by
  decide

/-- C7 amended: a second terminal delivery is not a no-op — it appends a
duplicate entry for the device to the result set; only the promise
resolution is idempotent: an already-settled promise keeps its original
value. -/
theorem c7_second_terminal_double_counts (st : OrchState) (d : String)
    (fs : FinishState) (v : List ResultEntry) (hres : st.resolved = some v) :
    (onFinish st d fs).results =
      st.results ++ [{ device := d, out := ResultOutcome.flash fs }] ∧
    (onFinish st d fs).resolved = some v := by
  refine ⟨(onFinish_components st d fs).1, ?_⟩
  unfold onFinish
  show (if (st.writers.filter (fun x => x != d)).isEmpty
      then resolveOnce st.resolved
        (st.results ++ [{ device := d, out := ResultOutcome.flash fs }])
      else st.resolved) = some v
  rw [hres]
  split
  · rfl
  · rfl

/-- Witness for the amended C7: second finish after the run has resolved. -/
theorem c7_witness :
    (run ["a"] [Event.finish ("a") wfA]).resolved =
      some [{ device := "a", out := ResultOutcome.flash wfA }] ∧
    (onFinish (run ["a"] [Event.finish ("a") wfA]) "a" wfA).resolved =
      some [{ device := "a", out := ResultOutcome.flash wfA }] :=
  ⟨by decide,
    (c7_second_terminal_double_counts (run ["a"] [Event.finish ("a") wfA]) "a" wfA
      [{ device := "a", out := ResultOutcome.flash wfA }] (by decide)).2⟩

/-- C8: the only aggregation site divides by the size of the map right
after an insertion, which is always positive; the terminal handlers
remove entries without re-running aggregation and without emitting a
snapshot, so an empty map is never aggregated and no division by zero
reaches an observer. -/
theorem c8_empty_map_never_aggregated (st : OrchState) (s : FlashState)
    (d er : String) (fs : FinishState) :
    0 < (mapSet st.states s.device s).length ∧
    (onError st d er).progress = st.progress ∧
    (onError st d er).emitted = st.emitted ∧
    (onFinish st d fs).progress = st.progress ∧
    (onFinish st d fs).emitted = st.emitted :=
  ⟨mapSet_length_pos st.states s.device s, rfl, rfl, rfl, rfl⟩

/-- Mean of a mapped field over the snapshots, nonnegativity form. -/
theorem map_mean_nonneg (l : List FlashState) (f : FlashState → ℚ)
    (h : ∀ x ∈ l, 0 ≤ f x) : 0 ≤ (l.map f).sum / ((l.length : ℚ)) := by
  have h2 : 0 ≤ (l.map f).sum / (((l.map f).length : ℚ)) := by
    refine mean_nonneg (l.map f) ?_
    intro y hy
    rcases List.mem_map.mp hy with ⟨x, hx, rfl⟩
    exact h x hx
  rwa [List.length_map] at h2

/-- Mean of a mapped field over the snapshots, upper-bound form. -/
theorem map_mean_le (l : List FlashState) (f : FlashState → ℚ) (c : ℚ)
    (h : ∀ x ∈ l, f x ≤ c) (hne : l ≠ []) :
    (l.map f).sum / ((l.length : ℚ)) ≤ c := by
  have h2 : (l.map f).sum / (((l.map f).length : ℚ)) ≤ c := by
    refine mean_le (l.map f) c ?_ ?_
    · intro y hy
      rcases List.mem_map.mp hy with ⟨x, hx, rfl⟩
      exact h x hx
    · intro hmn
      exact hne (List.map_eq_nil_iff.mp hmn)
  rwa [List.length_map] at h2

/-- C9: if every snapshot in the map and the incoming snapshot carry a
percentage within bounds and nonnegative speed and eta, then the
aggregated percentage is within bounds and the aggregated speed and eta
are nonnegative; and in the single-device case (previously empty map)
the aggregated snapshot equals the device's own snapshot, field by field. -/
theorem c9_aggregate_bounds (st : OrchState) (s : FlashState)
    (hp : ∀ q ∈ st.states, 0 ≤ q.2.percentage ∧ q.2.percentage ≤ 100)
    (hps : 0 ≤ s.percentage ∧ s.percentage ≤ 100)
    (hs : ∀ q ∈ st.states, 0 ≤ q.2.speed) (hss : 0 ≤ s.speed)
    (he : ∀ q ∈ st.states, 0 ≤ q.2.eta) (hes : 0 ≤ s.eta) :
    (0 ≤ (onProgress st s).progress.percentage ∧
      (onProgress st s).progress.percentage ≤ 100) ∧
    0 ≤ (onProgress st s).progress.speed ∧
    0 ≤ (onProgress st s).progress.eta ∧
    (st.states = [] →
      (onProgress st s).progress.type = s.type ∧
      (onProgress st s).progress.delta = s.delta ∧
      (onProgress st s).progress.transferred = s.transferred ∧
      (onProgress st s).progress.percentage = s.percentage ∧
      (onProgress st s).progress.remaining = s.remaining ∧
      (onProgress st s).progress.runtime = s.runtime ∧
      (onProgress st s).progress.speed = s.speed ∧
      (onProgress st s).progress.eta = s.eta) := by
  have hkey := onProgress_eq_specAggregate st s
  have hmem : ∀ x ∈ (mapSet st.states s.device s).map Prod.snd,
      (∃ q ∈ st.states, x = q.2) ∨ x = s := by
    intro x hx
    rcases List.mem_map.mp hx with ⟨q, hq, rfl⟩
    rcases mapSet_mem st.states s.device s q hq with h | h
    · exact Or.inl ⟨q, h, rfl⟩
    · right
      rw [h]
  have hnil : (mapSet st.states s.device s).map Prod.snd ≠ [] := by
    intro hmn
    have hlen := mapSet_length_pos st.states s.device s
    rw [List.map_eq_nil_iff.mp hmn] at hlen
    simp at hlen
  refine ⟨⟨?_, ?_⟩, ?_, ?_, ?_⟩
  · rw [hkey]
    show 0 ≤ (((mapSet st.states s.device s).map Prod.snd).map
      FlashState.percentage).sum / _
    refine map_mean_nonneg _ _ ?_
    intro x hx
    rcases hmem x hx with ⟨q, hq, rfl⟩ | rfl
    · exact (hp q hq).1
    · exact hps.1
  · rw [hkey]
    show (((mapSet st.states s.device s).map Prod.snd).map
      FlashState.percentage).sum / _ ≤ 100
    refine map_mean_le _ _ 100 ?_ hnil
    intro x hx
    rcases hmem x hx with ⟨q, hq, rfl⟩ | rfl
    · exact (hp q hq).2
    · exact hps.2
  · rw [hkey]
    show 0 ≤ (((mapSet st.states s.device s).map Prod.snd).map
      FlashState.speed).sum / _
    refine map_mean_nonneg _ _ ?_
    intro x hx
    rcases hmem x hx with ⟨q, hq, rfl⟩ | rfl
    · exact hs q hq
    · exact hss
  · rw [hkey]
    show 0 ≤ (((mapSet st.states s.device s).map Prod.snd).map
      FlashState.eta).sum / _
    refine map_mean_nonneg _ _ ?_
    intro x hx
    rcases hmem x hx with ⟨q, hq, rfl⟩ | rfl
    · exact he q hq
    · exact hes
  · intro h0
    have hsingle : (mapSet st.states s.device s).map Prod.snd = [s] := by
      rw [h0]
      rfl
    rw [hkey, hsingle]
    by_cases hw : s.type = FlashPhase.write
    · refine ⟨?_, ?_, ?_, ?_, ?_, ?_, ?_, ?_⟩ <;>
        simp [specAggregate, hw, List.countP_cons]
    · have hc : s.type = FlashPhase.check := by
        cases htype : s.type
        · exact absurd htype hw
        · rfl
      refine ⟨?_, ?_, ?_, ?_, ?_, ?_, ?_, ?_⟩ <;>
        simp [specAggregate, hc, List.countP_cons]

/-- Witness for C9 at a concrete two-device state. -/
theorem c9_witness :
    (∀ q ∈ (run ["a", "b"] [Event.progress wsB]).states,
      0 ≤ q.2.percentage ∧ q.2.percentage ≤ 100) ∧
    (0 ≤ wsA.percentage ∧ wsA.percentage ≤ 100) ∧
    (0 ≤ (onProgress (run ["a", "b"] [Event.progress wsB]) wsA).progress.percentage ∧
      (onProgress (run ["a", "b"] [Event.progress wsB]) wsA).progress.percentage ≤ 100) :=
  ⟨by decide, by decide,
    (c9_aggregate_bounds (run ["a", "b"] [Event.progress wsB]) wsA
      (by decide) (by decide) (by decide) (by decide) (by decide) (by decide)).1⟩

/-- The exit-code fold of the resolution path, in closed form. -/
theorem cliExitCode_closed_form (l : List ResultEntry) :
    cliExitCode l =
      (if l.any isErrorEntry then EXIT_CODES.GENERAL_ERROR
       else EXIT_CODES.SUCCESS) := by
  have haux : ∀ (l2 : List ResultEntry) (c : Nat),
      l2.foldl (fun code r =>
        match r.out with
        | ResultOutcome.error _ => EXIT_CODES.GENERAL_ERROR
        | ResultOutcome.flash _ => code) c =
      (if l2.any isErrorEntry then EXIT_CODES.GENERAL_ERROR else c) := by
    intro l2
    induction l2 with
    | nil =>
      intro c
      rfl
    | cons r rest ih =>
      intro c
      simp only [List.foldl_cons, List.any_cons]
      cases hr : r.out with
      | error e =>
        rw [ih]
        have hre : isErrorEntry r = true := by
          unfold isErrorEntry
          rw [hr]
        by_cases h2 : rest.any isErrorEntry <;> simp [h2, hre]
      | flash fs =>
        rw [ih]
        have hre : isErrorEntry r = false := by
          unfold isErrorEntry
          rw [hr]
        simp [hre]
  exact haux l EXIT_CODES.SUCCESS

/-- C10 counterexample: a resolved run in which one device failed exits
with the general-error code, not with the success code 0. -/
theorem c10_counterexample :
    cliExitCode [{ device := "a", out := ResultOutcome.error ("boom") }] =
      EXIT_CODES.GENERAL_ERROR ∧
    cliExitCode [{ device := "a", out := ResultOutcome.error ("boom") }] ≠
      EXIT_CODES.SUCCESS := by
  decide

/-- C10 amended: when the orchestration resolves, the process exits with
the success code 0 only if every device succeeded, and with the
general-error code as soon as at least one result entry carries an
error; the catch path maps a pre-flight validation failure
(`EVALIDATION`) to the validation-error code and everything else to the
general-error code. -/
theorem c10_exit_code_mapping (results : List ResultEntry)
    (code : Option String) :
    cliExitCode results =
      (if results.any isErrorEntry then EXIT_CODES.GENERAL_ERROR
       else EXIT_CODES.SUCCESS) ∧
    catchExitCode code =
      (if code = some ("EVALIDATION") then EXIT_CODES.VALIDATION_ERROR
       else EXIT_CODES.GENERAL_ERROR) :=
  ⟨cliExitCode_closed_form results, rfl⟩

/-- Appending worker traces composes the runs. -/
theorem cwRun_append (opts : CwOptions) (t u : List CwEvent) :
    cwRun opts (t ++ u) = u.foldl cwStep (cwRun opts t) := by
  unfold cwRun
  rw [List.foldl_append]

/-- Function `cwTermDevices` distributes over append. -/
theorem cwTermDevices_append (t u : List CwEvent) :
    cwTermDevices (t ++ u) = cwTermDevices t ++ cwTermDevices u := by
  unfold cwTermDevices
  rw [List.filterMap_append]

/-- After `terminate` ran, further events leave the worker untouched. -/
theorem cw_frozen (st : CwState) (h : st.terminated.isSome = true)
    (t : List CwEvent) : t.foldl cwStep st = st := by
  induction t with
  | nil => rfl
  | cons e rest ih =>
    simp only [List.foldl_cons]
    have hstep : cwStep st e = st := by
      unfold cwStep
      rw [if_pos h]
    rw [hstep]
    exact ih

/-- A trace containing an error event splits at its first error event. -/
theorem first_error_split (t : List CwEvent)
    (h : ∃ d err, CwEvent.error d err ∈ t) :
    ∃ t1 d err t2, t = t1 ++ CwEvent.error d err :: t2 ∧
      ∀ d2 e2, CwEvent.error d2 e2 ∉ t1 := by
  induction t with
  | nil =>
    rcases h with ⟨d, err, hmem⟩
    cases hmem
  | cons e rest ih =>
    cases e with
    | error d err =>
      refine ⟨[], d, err, rest, rfl, ?_⟩
      intro d2 e2 h2
      cases h2
    | progress s =>
      have h2 : ∃ d err, CwEvent.error d err ∈ rest := by
        rcases h with ⟨d, err, hmem⟩
        rcases List.mem_cons.mp hmem with h1 | h1
        · exact absurd h1 (by simp)
        · exact ⟨d, err, h1⟩
      rcases ih h2 with ⟨t1, d, err, t2, heq, hnone⟩
      refine ⟨CwEvent.progress s :: t1, d, err, t2, by rw [heq]; rfl, ?_⟩
      intro d2 e2 hmem
      rcases List.mem_cons.mp hmem with h3 | h3
      · exact absurd h3 (by simp)
      · exact hnone d2 e2 h3
    | finish r =>
      have h2 : ∃ d err, CwEvent.error d err ∈ rest := by
        rcases h with ⟨d, err, hmem⟩
        rcases List.mem_cons.mp hmem with h1 | h1
        · exact absurd h1 (by simp)
        · exact ⟨d, err, h1⟩
      rcases ih h2 with ⟨t1, d, err, t2, heq, hnone⟩
      refine ⟨CwEvent.finish r :: t1, d, err, t2, by rw [heq]; rfl, ?_⟩
      intro d2 e2 hmem
      rcases List.mem_cons.mp hmem with h3 | h3
      · exact absurd h3 (by simp)
      · exact hnone d2 e2 h3

/-- The worker error step, on a live worker: the handler logs and flips
the exit code, then faults reading `this.destinationDevice.device`; the
`uncaughtException` handler emits the generic error and terminates with
the general-error code.  No per-device error, no `done`, no `onFinish`
bookkeeping. -/
theorem cwStep_error_of_live (st : CwState) (d : String) (err : ErrorObj)
    (h : st.terminated = none) :
    cwStep st (CwEvent.error d err) =
      { st with
        exitCode := EXIT_CODES.GENERAL_ERROR,
        sent := st.sent ++ [IpcMsg.log err.message] ++
          [IpcMsg.genericError
            { message := ("Cannot read properties of undefined (reading device)") }],
        terminated := some EXIT_CODES.GENERAL_ERROR } := by
  unfold cwStep cwOnError cwHandleError cwTerminate moduleThis
  rw [h]
  simp [EXIT_CODES]

/-- The worker finish step, on a live worker with other writers still
registered: log and record the result, drop the writer, no `done`, no
termination. -/
theorem cwStep_finish_active (st : CwState) (r : CwResult)
    (hlive : st.terminated = none)
    (hact : (st.writers.filter (fun x => x != r.drive.device)).isEmpty = false) :
    cwStep st (CwEvent.finish r) =
      { st with
        sent := st.sent ++ [IpcMsg.log (("Finish: ") ++ r.drive.device)],
        results := st.results ++ [r],
        writers := st.writers.filter (fun x => x != r.drive.device) } := by
  unfold cwStep cwOnFinish
  rw [hlive]
  simp only [Option.isSome_none, Bool.false_eq_true, if_false]
  rw [if_neg]
  rw [hact]
  simp

/-- Worker invariant on error-free, not-yet-complete traces: the worker
is live, the writer set holds exactly the unterminated destinations, and
neither `done` nor any error message has been emitted. -/
theorem cw_no_error_invariant (opts : CwOptions)
    (hnd : opts.destinations.Nodup) (t : List CwEvent)
    (hnoerr : ∀ d e, CwEvent.error d e ∉ t)
    (hsub : ∀ x ∈ cwTermDevices t, x ∈ opts.destinations)
    (htnd : (cwTermDevices t).Nodup)
    (hncov : ¬ ∀ x ∈ opts.destinations, x ∈ cwTermDevices t) :
    (cwRun opts t).terminated = none ∧
    (cwRun opts t).writers =
      opts.destinations.filter (fun x => decide (x ∉ cwTermDevices t)) ∧
    (∀ rs, IpcMsg.done rs ∉ (cwRun opts t).sent) ∧
    (∀ dv p, IpcMsg.deviceError dv p ∉ (cwRun opts t).sent) ∧
    (∀ p, IpcMsg.genericError p ∉ (cwRun opts t).sent) := by
  induction t using List.reverseRecOn with
  | nil =>
    refine ⟨rfl, ?_, ?_, ?_, ?_⟩
    · show (cwInit opts).writers = _
      unfold cwInit
      show opts.destinations.foldl setKey [] = _
      rw [foldl_setKey_of_nodup opts.destinations [] (by simp) hnd]
      simp [cwTermDevices]
    · intro rs hmem
      unfold cwRun cwInit at hmem
      simp at hmem
    · intro dv p hmem
      unfold cwRun cwInit at hmem
      simp at hmem
    · intro p hmem
      unfold cwRun cwInit at hmem
      simp at hmem
  | append_singleton l e ih =>
    have hnoerr' : ∀ d e2, CwEvent.error d e2 ∉ l := by
      intro d e2 hmem
      exact hnoerr d e2 (List.mem_append_left _ hmem)
    have hsub' : ∀ x ∈ cwTermDevices l, x ∈ opts.destinations := by
      intro x hx
      refine hsub x ?_
      rw [cwTermDevices_append]
      exact List.mem_append_left _ hx
    have htnd' : (cwTermDevices l).Nodup := by
      rw [cwTermDevices_append] at htnd
      exact htnd.of_append_left
    have hncov' : ¬ ∀ x ∈ opts.destinations, x ∈ cwTermDevices l := by
      intro hall
      refine hncov ?_
      intro x hx
      rw [cwTermDevices_append]
      exact List.mem_append_left _ (hall x hx)
    obtain ⟨ihT, ihW, ihD, ihE, ihG⟩ := ih hnoerr' hsub' htnd' hncov'
    rw [cwRun_append]
    simp only [List.foldl_cons, List.foldl_nil]
    cases e with
    | error d err =>
      exact absurd (List.mem_append_right _ (List.mem_singleton_self _))
        (hnoerr d err)
    | progress s =>
      have hT : cwTermDevices (l ++ [CwEvent.progress s]) = cwTermDevices l := by
        rw [cwTermDevices_append]
        simp [cwTermDevices, cwTermDevice]
      have hstep : (cwStep (cwRun opts l) (CwEvent.progress s)).terminated = none ∧
          (cwStep (cwRun opts l) (CwEvent.progress s)).writers = (cwRun opts l).writers ∧
          (cwStep (cwRun opts l) (CwEvent.progress s)).sent =
            (cwRun opts l).sent ++ [IpcMsg.state s] := by
        unfold cwStep cwOnProgress
        rw [ihT]
        exact ⟨rfl, rfl, rfl⟩
      obtain ⟨hsT, hsW, hsS⟩ := hstep
      rw [hT]
      refine ⟨hsT, hsW.trans ihW, ?_, ?_, ?_⟩
      · intro rs hmem
        rw [hsS] at hmem
        rcases List.mem_append.mp hmem with h1 | h1
        · exact ihD rs h1
        · simp at h1
      · intro dv p hmem
        rw [hsS] at hmem
        rcases List.mem_append.mp hmem with h1 | h1
        · exact ihE dv p h1
        · simp at h1
      · intro p hmem
        rw [hsS] at hmem
        rcases List.mem_append.mp hmem with h1 | h1
        · exact ihG p h1
        · simp at h1
    | finish r =>
      have hT : cwTermDevices (l ++ [CwEvent.finish r]) =
          cwTermDevices l ++ [r.drive.device] := by
        rw [cwTermDevices_append]
        simp [cwTermDevices, cwTermDevice]
      have hdmem : r.drive.device ∈ opts.destinations := by
        refine hsub r.drive.device ?_
        rw [hT]
        exact List.mem_append_right _ (List.mem_singleton_self _)
      have htnd2 : (cwTermDevices l ++ [r.drive.device]).Nodup := hT ▸ htnd
      have hdT : r.drive.device ∉ cwTermDevices l := by
        rcases List.nodup_append.mp htnd2 with ⟨-, -, hdisj⟩
        intro hmem
        exact hdisj hmem (List.mem_singleton_self _)
      have hncov2 : ¬ ∀ x ∈ opts.destinations,
          x ∈ cwTermDevices l ++ [r.drive.device] := by
        intro hall
        refine hncov ?_
        intro x hx
        rw [hT]
        exact hall x hx
      have hact : ((cwRun opts l).writers.filter
          (fun x => x != r.drive.device)).isEmpty = false := by
        rw [ihW, filter_remove_terminal]
        rw [Bool.eq_false_iff]
        intro hemp
        rw [List.isEmpty_iff] at hemp
        exact hncov2 ((filter_not_mem_eq_nil_iff opts.destinations _).mp hemp)
      rw [cwStep_finish_active (cwRun opts l) r ihT hact, hT]
      refine ⟨ihT, ?_, ?_, ?_, ?_⟩
      · show (cwRun opts l).writers.filter (fun x => x != r.drive.device) = _
        rw [ihW, filter_remove_terminal]
      · intro rs hmem
        rcases List.mem_append.mp hmem with h1 | h1
        · exact ihD rs h1
        · simp at h1
      · intro dv p hmem
        rcases List.mem_append.mp hmem with h1 | h1
        · exact ihE dv p h1
        · simp at h1
      · intro p hmem
        rcases List.mem_append.mp hmem with h1 | h1
        · exact ihG p h1
        · simp at h1

/-- C3: in any worker run obeying the per-session contract in which at
least one writer emits an error event, the error handler — an arrow
function whose receiver is the empty module context, never a writer —
faults reading `this.destinationDevice.device` before emitting the
per-device error or running the finish bookkeeping; the fault reaches
the `uncaughtException` handler, which emits a generic `error` and
terminates the worker with the general-error exit code, so no `done`
event is ever emitted. -/
theorem c3_worker_error_handler_faults (opts : CwOptions) (t : List CwEvent)
    (hnd : opts.destinations.Nodup)
    (hsub : ∀ x ∈ cwTermDevices t, x ∈ opts.destinations)
    (htnd : (cwTermDevices t).Nodup)
    (herr : ∃ d err, CwEvent.error d err ∈ t) :
    (∀ rs, IpcMsg.done rs ∉ (cwRun opts t).sent) ∧
    (cwRun opts t).terminated = some EXIT_CODES.GENERAL_ERROR ∧
    (∀ dv p, IpcMsg.deviceError dv p ∉ (cwRun opts t).sent) ∧
    (∃ p, IpcMsg.genericError p ∈ (cwRun opts t).sent) := by
  rcases first_error_split t herr with ⟨t1, d, err, t2, rfl, hnone1⟩
  have hTfull : cwTermDevices (t1 ++ CwEvent.error d err :: t2) =
      cwTermDevices t1 ++ d :: cwTermDevices t2 := by
    rw [cwTermDevices_append]
    simp [cwTermDevices, cwTermDevice]
  have hdmem : d ∈ opts.destinations := by
    refine hsub d ?_
    rw [hTfull]
    exact List.mem_append_right _ (List.mem_cons_self _ _)
  have ht1sub : ∀ x ∈ cwTermDevices t1, x ∈ opts.destinations := by
    intro x hx
    refine hsub x ?_
    rw [hTfull]
    exact List.mem_append_left _ hx
  have ht1nd : (cwTermDevices t1).Nodup := by
    have h2 : (cwTermDevices t1 ++ d :: cwTermDevices t2).Nodup :=
      hTfull ▸ htnd
    exact h2.of_append_left
  have hdT1 : d ∉ cwTermDevices t1 := by
    have h2 : (cwTermDevices t1 ++ d :: cwTermDevices t2).Nodup :=
      hTfull ▸ htnd
    rcases List.nodup_append.mp h2 with ⟨-, -, hdisj⟩
    intro hmem
    exact hdisj hmem (List.mem_cons_self _ _)
  have hncov1 : ¬ ∀ x ∈ opts.destinations, x ∈ cwTermDevices t1 :=
    fun hall => hdT1 (hall d hdmem)
  obtain ⟨ihT, ihW, ihD, ihE, ihG⟩ :=
    cw_no_error_invariant opts hnd t1 hnone1 ht1sub ht1nd hncov1
  have hdec : cwRun opts (t1 ++ CwEvent.error d err :: t2) =
      t2.foldl cwStep (cwStep (cwRun opts t1) (CwEvent.error d err)) := by
    rw [List.append_cons, cwRun_append, cwRun_append]
    simp only [List.foldl_cons, List.foldl_nil]
  rw [hdec, cwStep_error_of_live (cwRun opts t1) d err ihT]
  rw [cw_frozen _ (by rfl) t2]
  refine ⟨?_, rfl, ?_, ?_⟩
  · intro rs hmem
    rcases List.mem_append.mp hmem with h1 | h1
    · rcases List.mem_append.mp h1 with h2 | h2
      · exact ihD rs h2
      · simp at h2
    · simp at h1
  · intro dv p hmem
    rcases List.mem_append.mp hmem with h1 | h1
    · rcases List.mem_append.mp h1 with h2 | h2
      · exact ihE dv p h2
      · simp at h2
    · simp at h1
  · refine ⟨{ message := ("Cannot read properties of undefined (reading device)") }, ?_⟩
    exact List.mem_append_right _ (List.mem_singleton_self _)

/-- Concrete worker options for the witnesses. -/
def wOpts : CwOptions :=
  { imagePath := "img", destinations := ["a", "b"],
    unmountOnSuccess := true, validateWriteOnSuccess := true,
    checksumAlgorithms := ["crc32"] }

/-- Witness for C3: device `a` errors, device `b` finishes. -/
theorem c3_witness :
    (∃ d err, CwEvent.error d err ∈
      [CwEvent.error ("a") { message := "bad" },
       CwEvent.finish { drive := { device := "b" }, checksum := "BBB" }]) ∧
    (cwRun wOpts
      [CwEvent.error ("a") { message := "bad" },
       CwEvent.finish { drive := { device := "b" }, checksum := "BBB" }]).terminated =
      some EXIT_CODES.GENERAL_ERROR :=
  ⟨⟨"a", { message := "bad" }, by decide⟩,
    (c3_worker_error_handler_faults wOpts
      [CwEvent.error ("a") { message := "bad" },
       CwEvent.finish { drive := { device := "b" }, checksum := "BBB" }]
      (by decide) (by decide) (by decide)
      ⟨"a", { message := "bad" }, by decide⟩).2.1⟩

/-- C4 counterexample: with two active sessions at 0% and 100%, the
worker forwards the emitting device's own snapshot (percentage 100) as
the `state` payload, while the AggregatedProgress of §3 over the active
sessions has percentage 50 — the forwarded payload is not the aggregate. -/
theorem c4_counterexample :
    (cwRun wOpts [CwEvent.progress wsB, CwEvent.progress wsA]).sent =
      (cwInit wOpts).sent ++ [IpcMsg.state wsB, IpcMsg.state wsA] ∧
    wsA.percentage = 100 ∧
    (specAggregate [wsB, wsA]).percentage = 50 ∧
    ¬ wsA.percentage = (specAggregate [wsB, wsA]).percentage := by
  refine ⟨?_, ?_, ?_, ?_⟩
  · decide
  · decide
  · norm_num [specAggregate, wsA, wsB]
  · norm_num [specAggregate, wsA, wsB]

/-- C4 amended: on every progress event a live worker emits a `state`
event whose payload is the emitting device's own snapshot, forwarded
unchanged — no aggregation is performed in the worker. -/
theorem c4_state_payload_is_device_snapshot (st : CwState) (s : FlashState)
    (h : st.terminated = none) :
    (cwStep st (CwEvent.progress s)).sent = st.sent ++ [IpcMsg.state s] := by
  unfold cwStep cwOnProgress
  rw [h]
  rfl

/-- Witness for the amended C4. -/
theorem c4_witness :
    (cwInit wOpts).terminated = none ∧
    (cwStep (cwInit wOpts) (CwEvent.progress wsA)).sent =
      (cwInit wOpts).sent ++ [IpcMsg.state wsA] :=
  ⟨rfl, c4_state_payload_is_device_snapshot (cwInit wOpts) wsA rfl⟩
